import Mathlib

/-!
Shallow embedding of the `crypto-practice` repository (src/sha.rs, src/hmac.rs,
src/ghash.rs) and proofs about its specification claims.

Machine integers (`u64`) are modelled as `Nat` with explicit reduction
modulo `2 ^ 64` where the Rust code wraps; byte sequences are `List Nat`.
-/

namespace CryptoPractice

set_option maxRecDepth 4096

/-- `2 ^ 64`, the modulus for `u64` arithmetic. -/
def M64 : Nat := 18446744073709551616

/-- Wrapping 64-bit addition (`u64::wrapping_add`). -/
def wadd (a b : Nat) : Nat := (a + b) % M64

/-- 64-bit right rotation (`u64::rotate_right`). -/
def rotr (n x : Nat) : Nat := ((x >>> n) ||| (x <<< (64 - n))) % M64

/-- `Vec::chunks`-style splitting, driven by explicit fuel so that it is
structurally recursive and reduces in the kernel. -/
def chunksF : Nat → Nat → List Nat → List (List Nat)
  | 0, _, _ => []
  | _, _, [] => []
  | fuel + 1, n, x :: xs => (x :: xs).take n :: chunksF fuel n ((x :: xs).drop n)

/-- `slice::chunks(n)`: successive chunks of `n` elements, the last possibly
shorter; an empty slice yields no chunks. -/
def chunks (n : Nat) (l : List Nat) : List (List Nat) := chunksF l.length n l

/-- Big-endian interpretation of a byte list as an unsigned integer
(`BigEndian::read_u64` on an 8-byte slice). -/
def beWord (bs : List Nat) : Nat := bs.foldl (fun a b => a * 256 + b) 0

/-- Big-endian serialization of `x` into `n` bytes (`BigEndian::write_u64`
for `n = 8` and `x < 2 ^ 64`). -/
def beBytes : Nat → Nat → List Nat
  | 0, _ => []
  | n + 1, x => beBytes n (x / 256) ++ [x % 256]

/-- `BigEndian::read_u64_into`: split a byte list into 8-byte groups and read
each as a big-endian 64-bit word. -/
def bytesToWords (bs : List Nat) : List Nat := (chunks 8 bs).map beWord

/-- `BigEndian::write_u64_into`: serialize each word as 8 big-endian bytes. -/
def wordsToBytes (ws : List Nat) : List Nat := (ws.map (beBytes 8)).flatten

/-! ## SHA-512/384 (src/sha.rs) -/

def SHA512_OUTPUT_LEN : Nat := 64

def SHA384_OUTPUT_LEN : Nat := 48

/-- Initial state of SHA-512 (`static SHA512` in src/sha.rs; the source
writes these words in hexadecimal, 0x6a09e667f3bcc908 through
0x5be0cd19137e2179 -- they appear here in decimal). -/
def sha512InitialState : List Nat :=
  [7640891576956012808, 13503953896175478587, 4354685564936845355, 11912009170470909681,
   5840696475078001361, 11170449401992604703, 2270897969802886507, 6620516959819538809]

/-- Initial state of SHA-384 (`static SHA384` in src/sha.rs; hexadecimal
0xcbbb9d5dc1059ed8 through 0x47b5481dbefa4fa4 in the source, decimal
here). -/
def sha384InitialState : List Nat :=
  [14680500436340154072, 7105036623409894663, 10473403895298186519, 1526699215303891257,
   7436329637833083697, 10282925794625328401, 15784041429090275239, 5167115440072839076]

/-- The 80 SHA-512 round constants (`const K` in src/sha.rs; the source
writes them in hexadecimal, 0x428a2f98d728ae22 through 0x6c44198c4a475817
-- they appear here in decimal, in the same order). -/
def K : List Nat :=
  [4794697086780616226, 8158064640168781261, 13096744586834688815, 16840607885511220156,
   4131703408338449720, 6480981068601479193, 10538285296894168987, 12329834152419229976,
   15566598209576043074, 1334009975649890238, 2608012711638119052, 6128411473006802146,
   8268148722764581231, 9286055187155687089, 11230858885718282805, 13951009754708518548,
   16472876342353939154, 17275323862435702243, 1135362057144423861, 2597628984639134821,
   3308224258029322869, 5365058923640841347, 6679025012923562964, 8573033837759648693,
   10970295158949994411, 12119686244451234320, 12683024718118986047, 13788192230050041572,
   14330467153632333762, 15395433587784984357, 489312712824947311, 1452737877330783856,
   2861767655752347644, 3322285676063803686, 5560940570517711597, 5996557281743188959,
   7280758554555802590, 8532644243296465576, 9350256976987008742, 10552545826968843579,
   11727347734174303076, 12113106623233404929, 14000437183269869457, 14369950271660146224,
   15101387698204529176, 15463397548674623760, 17586052441742319658, 1182934255886127544,
   1847814050463011016, 2177327727835720531, 2830643537854262169, 3796741975233480872,
   4115178125766777443, 5681478168544905931, 6601373596472566643, 7507060721942968483,
   8399075790359081724, 8693463985226723168, 9568029438360202098, 10144078919501101548,
   10430055236837252648, 11840083180663258601, 13761210420658862357, 14299343276471374635,
   14566680578165727644, 15097957966210449927, 16922976911328602910, 17689382322260857208,
   500013540394364858, 748580250866718886, 1242879168328830382, 1977374033974150939,
   2944078676154940804, 3659926193048069267, 4368137639120453308, 4836135668995329356,
   5532061633213252278, 6448918945643986474, 6902733635092675308, 7801388544844847127]

/-- `Sha::ch`. -/
def ch (x y z : Nat) : Nat := (x &&& y) ^^^ ((x ^^^ (M64 - 1)) &&& z)

/-- `Sha::maj`. -/
def maj (x y z : Nat) : Nat := (x &&& y) ^^^ (x &&& z) ^^^ (y &&& z)

/-- `Sha::bsig0`. -/
def bsig0 (x : Nat) : Nat := rotr 28 x ^^^ rotr 34 x ^^^ rotr 39 x

/-- `Sha::bsig1`. -/
def bsig1 (x : Nat) : Nat := rotr 14 x ^^^ rotr 18 x ^^^ rotr 41 x

/-- `Sha::ssig0`. -/
def ssig0 (x : Nat) : Nat := rotr 1 x ^^^ rotr 8 x ^^^ (x >>> 7)

/-- `Sha::ssig1`. -/
def ssig1 (x : Nat) : Nat := rotr 19 x ^^^ rotr 61 x ^^^ (x >>> 6)

/-- One step of the message-schedule extension; `w` holds the schedule so far
in reverse (most recent word first). -/
def scheduleStep (w : List Nat) : List Nat :=
  wadd (wadd (ssig1 (w.getD 1 0)) (w.getD 6 0)) (wadd (ssig0 (w.getD 14 0)) (w.getD 15 0)) :: w

/-- Iterate the schedule extension. -/
def extendSchedule : Nat → List Nat → List Nat
  | 0, w => w
  | n + 1, w => extendSchedule n (scheduleStep w)

/-- The 80-word message schedule from the 16 input words
(the `for t in 16..80` loop of `Sha::process`). -/
def schedule (w16 : List Nat) : List Nat := (extendSchedule 64 w16.reverse).reverse

/-- The eight working registers of the compression loop. -/
structure Regs where
  a : Nat
  b : Nat
  c : Nat
  d : Nat
  e : Nat
  f : Nat
  g : Nat
  h : Nat
  deriving Repr, DecidableEq

/-- One round of the compression loop of `Sha::process`. -/
def shaRound (r : Regs) (kt wt : Nat) : Regs :=
  let t1 := wadd (wadd (wadd (wadd r.h (bsig1 r.e)) (ch r.e r.f r.g)) kt) wt
  let t2 := wadd (bsig0 r.a) (maj r.a r.b r.c)
  ⟨wadd t1 t2, r.a, r.b, r.c, wadd r.d t1, r.e, r.f, r.g⟩

/-- Process one 128-byte block (the body of the `for chunk` loop of
`Sha::process`): schedule expansion, 80 rounds, state feed-forward. -/
def shaCompress (state : List Nat) (block : List Nat) : List Nat :=
  let w := schedule (bytesToWords block)
  let r0 : Regs :=
    ⟨state.getD 0 0, state.getD 1 0, state.getD 2 0, state.getD 3 0,
     state.getD 4 0, state.getD 5 0, state.getD 6 0, state.getD 7 0⟩
  let r := (K.zip w).foldl (fun r kw => shaRound r kw.1 kw.2) r0
  [wadd (state.getD 0 0) r.a, wadd (state.getD 1 0) r.b, wadd (state.getD 2 0) r.c,
   wadd (state.getD 3 0) r.d, wadd (state.getD 4 0) r.e, wadd (state.getD 5 0) r.f,
   wadd (state.getD 6 0) r.g, wadd (state.getD 7 0) r.h]

/-- The free function `len` in src/sha.rs: the message's bit length,
wrapped to 64 bits, as 8 big-endian bytes. -/
def lenBytes (bytes : List Nat) : List Nat := beBytes 8 (8 * bytes.length % M64)

/-- `Sha::pad` (src/sha.rs lines 230-237): append `0x80`, zero bytes to reach
112 mod 128, eight zero bytes, then the 64-bit big-endian bit length. -/
def pad (bytes : List Nat) : List Nat :=
  let l := lenBytes bytes
  let bytes1 := bytes ++ [0x80]
  let padding := (128 + 112 - bytes1.length % 128) % 128
  bytes1 ++ List.replicate padding 0 ++ List.replicate 8 0 ++ l

/-- `Sha::process`: pad, then compress each 128-byte chunk in order. -/
def shaProcess (state : List Nat) (message : List Nat) : List Nat :=
  (chunks 128 (pad message)).foldl shaCompress state

/-- The `Sha` struct: running state plus the variant's output length. -/
structure Sha where
  state : List Nat
  output_len : Nat
  deriving Repr, DecidableEq

/-- `Sha::new`. -/
def Sha.new (initialState : List Nat) (outputLen : Nat) : Sha :=
  ⟨initialState, outputLen⟩

/-- `Sha::write_digest_into` (src/sha.rs lines 200-203).  The Rust code
asserts that the buffer length equals `output_len` and otherwise panics;
the panic is modelled as `none`, success as `some digest`. -/
def Sha.write_digest_into (s : Sha) (bufLen : Nat) : Option (List Nat) :=
  if s.output_len = bufLen then
    some (wordsToBytes (s.state.take (s.output_len / 8)))
  else
    none

/-- `sha512` (src/sha.rs lines 7-13): one-shot SHA-512 digest. -/
def sha512 (msg : List Nat) : List Nat :=
  wordsToBytes ((shaProcess sha512InitialState msg).take (SHA512_OUTPUT_LEN / 8))

/-- `sha384` (src/sha.rs lines 15-21): one-shot SHA-384 digest. -/
def sha384 (msg : List Nat) : List Nat :=
  wordsToBytes ((shaProcess sha384InitialState msg).take (SHA384_OUTPUT_LEN / 8))

/-! ## GHASH (src/ghash.rs) -/

/-- `const R0` in src/ghash.rs: the GCM reduction constant `0xe1 << 56`. -/
def R0 : Nat := 0xe1 <<< 56

/-- `GFBlock`: a 128-bit field element as two 64-bit words, word 0 most
significant. -/
structure GFBlock where
  w0 : Nat
  w1 : Nat
  deriving Repr, DecidableEq

/-- `GFBlock::new`: big-endian read of two 64-bit words from 16 bytes. -/
def GFBlock.new (bytes : List Nat) : GFBlock :=
  ⟨(bytesToWords bytes).getD 0 0, (bytesToWords bytes).getD 1 0⟩

/-- `BitXorAssign for GFBlock`: word-wise XOR. -/
def gfXor (a b : GFBlock) : GFBlock := ⟨a.w0 ^^^ b.w0, a.w1 ^^^ b.w1⟩

/-- Arithmetic (sign-extending) right shift of a 64-bit value `x` by `k`
bits, Rust's `(x as i64 >> k) as u64`: when the sign bit of `x` is set the
vacated top `k` bits are filled with ones. -/
def asr64 (x k : Nat) : Nat :=
  if x < 2 ^ 63 then x >>> k else (x >>> k) + (M64 - 2 ^ (64 - k))

/-- One iteration of the inner `for _ in 0..64` loop of
`MulAssign for GFBlock` (src/ghash.rs lines 103-117), acting on the state
`(z, v, xp)`. -/
def mulStep : GFBlock × GFBlock × Nat → GFBlock × GFBlock × Nat
  | (z, v, xp) =>
    let m := asr64 (xp &&& (1 <<< 63)) 63
    let z' : GFBlock := ⟨z.w0 ^^^ (v.w0 &&& m), z.w1 ^^^ (v.w1 &&& m)⟩
    let m2 := asr64 ((v.w1 <<< 63) % M64) 7
    let v1 := (v.w1 >>> 1) ||| ((v.w0 <<< 63) % M64)
    let v0 := (v.w0 >>> 1) ^^^ (R0 &&& m2)
    (z', ⟨v0, v1⟩, (xp <<< 1) % M64)

/-- Iterate `mulStep`. -/
def mulWords : Nat → GFBlock × GFBlock × Nat → GFBlock × GFBlock × Nat
  | 0, s => s
  | n + 1, s => mulWords n (mulStep s)

/-- `MulAssign for GFBlock` (src/ghash.rs lines 98-121): bit-serial GF(2^128)
multiplication, self's word 0 first, then word 1, with `z` and `v` carried
across the two words. -/
def gfMul (x y : GFBlock) : GFBlock :=
  let s1 := mulWords 64 (⟨0, 0⟩, y, x.w0)
  (mulWords 64 (s1.1, s1.2.1, x.w1)).1

/-- `PolyFunction`: the fixed key element and the running accumulator. -/
structure PolyFunction where
  key_block : GFBlock
  state : GFBlock
  deriving Repr, DecidableEq

/-- `PolyFunction::new`. -/
def PolyFunction.new (key : List Nat) : PolyFunction := ⟨GFBlock.new key, ⟨0, 0⟩⟩

/-- `PolyFunction::process`: XOR the input block into the accumulator, then
multiply by the key element. -/
def PolyFunction.process (f : PolyFunction) (input : List Nat) : PolyFunction :=
  { f with state := gfMul (gfXor f.state (GFBlock.new input)) f.key_block }

/-- `PolyFunction::write_value`: big-endian serialization of the accumulator. -/
def PolyFunction.write_value (f : PolyFunction) : List Nat :=
  wordsToBytes [f.state.w0, f.state.w1]

/-- `GHash`: polynomial function plus the two byte counters. -/
structure GHash where
  function : PolyFunction
  data_len : Nat
  ciphertext_len : Nat
  deriving Repr, DecidableEq

/-- The body of the `for chunk` loop of `GHash::process`: a chunk shorter
than 16 bytes is copied into a zero-initialized 16-byte buffer first. -/
def GHash.processChunk (f : PolyFunction) (chunk : List Nat) : PolyFunction :=
  if chunk.length < 16 then f.process (chunk ++ List.replicate (16 - chunk.length) 0)
  else f.process chunk

/-- `GHash::process` (src/ghash.rs lines 43-53). -/
def GHash.process (g : GHash) (input : List Nat) : GHash :=
  { g with function := (chunks 16 input).foldl GHash.processChunk g.function }

/-- `GHash::new`: record the AAD length and fold the AAD in immediately. -/
def GHash.new (key data : List Nat) : GHash :=
  GHash.process ⟨PolyFunction.new key, data.length, 0⟩ data

/-- `GHash::update`: add to the ciphertext byte counter and fold the input. -/
def GHash.update (g : GHash) (input : List Nat) : GHash :=
  GHash.process { g with ciphertext_len := g.ciphertext_len + input.length } input

/-- `GHash::write_tag` (src/ghash.rs lines 36-41): build the length block
from the two bit lengths (64-bit wrapping, big-endian), fold it in, and
emit the accumulator. -/
def GHash.write_tag (g : GHash) : List Nat :=
  let output := beBytes 8 (8 * g.data_len % M64) ++ beBytes 8 (8 * g.ciphertext_len % M64)
  (g.function.process output).write_value

/-- The free function `ghash` (src/ghash.rs lines 4-10). -/
def ghash (key data ciphertext : List Nat) : List Nat :=
  ((GHash.new key data).update ciphertext).write_tag

/-! ## HMAC (src/hmac.rs)

`Hmac<T>` is generic over the hash capability `sha2::HashFunction`, whose
defining module is not among the sources; it is modelled from the spec. -/

def MAX_DIGEST_SIZE : Nat := 64

def IPAD : Nat := 0x36

def OPAD : Nat := 0x5c

/-- Modelled from the spec: the hash capability (`sha2::HashFunction`) that
`Hmac` is generic over — "a default-constructible hash engine exposing a
fixed block size, a fixed digest size, an incremental `update`, and a
`write_digest` that finalizes".  The engine's observable behaviour is the
digest function applied to all bytes fed so far. -/
structure HashCap where
  BLOCK_SIZE : Nat
  DIGEST_SIZE : Nat
  digest : List Nat → List Nat

/-- Modelled from the spec: a running engine of the hash capability.
`update` accumulates bytes; "repeated calls must be equivalent to a single
call with the concatenation of all inputs". -/
structure HashEngine where
  fed : List Nat
  deriving Repr, DecidableEq

/-- Modelled from the spec: `T::default()`, a fresh engine. -/
def HashEngine.default : HashEngine := ⟨[]⟩

/-- Modelled from the spec: the engine's incremental `update`. -/
def HashEngine.update (e : HashEngine) (input : List Nat) : HashEngine :=
  ⟨e.fed ++ input⟩

/-- Modelled from the spec: the engine's finalizing `write_digest`. -/
def HashEngine.write_digest (H : HashCap) (e : HashEngine) : List Nat :=
  H.digest e.fed

/-- `Hmac`: the two engines (src/hmac.rs lines 7-10). -/
structure Hmac where
  inner_hash_function : HashEngine
  outer_hash_function : HashEngine
  deriving Repr, DecidableEq

/-- `Hmac::new` (src/hmac.rs lines 21-47): hash down an over-long key, then
feed each engine the padded key byte by byte. -/
def Hmac.new (H : HashCap) (key : List Nat) : Hmac :=
  let new_key := if key.length > H.BLOCK_SIZE then (H.digest key).take H.DIGEST_SIZE else key
  let hmac : Hmac := ⟨HashEngine.default, HashEngine.default⟩
  let hmac := new_key.foldl
    (fun h b =>
      ⟨h.inner_hash_function.update [b ^^^ IPAD], h.outer_hash_function.update [b ^^^ OPAD]⟩)
    hmac
  (List.range (H.BLOCK_SIZE - new_key.length)).foldl
    (fun h _ =>
      ⟨h.inner_hash_function.update [IPAD], h.outer_hash_function.update [OPAD]⟩)
    hmac

/-- `Hmac::update` (src/hmac.rs lines 49-51): streams only into the inner
engine. -/
def Hmac.update (h : Hmac) (input : List Nat) : Hmac :=
  { h with inner_hash_function := h.inner_hash_function.update input }

/-- `Hmac::write_digest` (src/hmac.rs lines 53-57): finalize the inner
engine, feed its digest to the outer engine, finalize the outer engine. -/
def Hmac.write_digest (H : HashCap) (h : Hmac) : List Nat :=
  let output := h.inner_hash_function.write_digest H
  let outer := h.outer_hash_function.update output
  outer.write_digest H

/-! ## Theorems -/

/-- C1: the one-shot hash functions match the published known-answer
vectors: `sha512` and `sha384` of the empty byte sequence and of the
three-byte message `"abc"` each equal their NIST test vector. -/
theorem sha_known_answer_vectors :
    sha512 [] =
      [0xcf, 0x83, 0xe1, 0x35, 0x7e, 0xef, 0xb8, 0xbd, 0xf1, 0x54, 0x28, 0x50, 0xd6, 0x6d, 0x80,
       0x07, 0xd6, 0x20, 0xe4, 0x05, 0x0b, 0x57, 0x15, 0xdc, 0x83, 0xf4, 0xa9, 0x21, 0xd3, 0x6c,
       0xe9, 0xce, 0x47, 0xd0, 0xd1, 0x3c, 0x5d, 0x85, 0xf2, 0xb0, 0xff, 0x83, 0x18, 0xd2, 0x87,
       0x7e, 0xec, 0x2f, 0x63, 0xb9, 0x31, 0xbd, 0x47, 0x41, 0x7a, 0x81, 0xa5, 0x38, 0x32, 0x7a,
       0xf9, 0x27, 0xda, 0x3e] ∧
    sha384 [] =
      [0x38, 0xb0, 0x60, 0xa7, 0x51, 0xac, 0x96, 0x38, 0x4c, 0xd9, 0x32, 0x7e, 0xb1, 0xb1, 0xe3,
       0x6a, 0x21, 0xfd, 0xb7, 0x11, 0x14, 0xbe, 0x07, 0x43, 0x4c, 0x0c, 0xc7, 0xbf, 0x63, 0xf6,
       0xe1, 0xda, 0x27, 0x4e, 0xde, 0xbf, 0xe7, 0x6f, 0x65, 0xfb, 0xd5, 0x1a, 0xd2, 0xf1, 0x48,
       0x98, 0xb9, 0x5b] ∧
    sha512 [0x61, 0x62, 0x63] =
      [0xdd, 0xaf, 0x35, 0xa1, 0x93, 0x61, 0x7a, 0xba, 0xcc, 0x41, 0x73, 0x49, 0xae, 0x20, 0x41,
       0x31, 0x12, 0xe6, 0xfa, 0x4e, 0x89, 0xa9, 0x7e, 0xa2, 0x0a, 0x9e, 0xee, 0xe6, 0x4b, 0x55,
       0xd3, 0x9a, 0x21, 0x92, 0x99, 0x2a, 0x27, 0x4f, 0xc1, 0xa8, 0x36, 0xba, 0x3c, 0x23, 0xa3,
       0xfe, 0xeb, 0xbd, 0x45, 0x4d, 0x44, 0x23, 0x64, 0x3c, 0xe8, 0x0e, 0x2a, 0x9a, 0xc9, 0x4f,
       0xa5, 0x4c, 0xa4, 0x9f] ∧
    sha384 [0x61, 0x62, 0x63] =
      [0xcb, 0x00, 0x75, 0x3f, 0x45, 0xa3, 0x5e, 0x8b, 0xb5, 0xa0, 0x3d, 0x69, 0x9a, 0xc6, 0x50,
       0x07, 0x27, 0x2c, 0x32, 0xab, 0x0e, 0xde, 0xd1, 0x63, 0x1a, 0x8b, 0x60, 0x5a, 0x43, 0xff,
       0x5b, 0xed, 0x80, 0x86, 0x07, 0x2b, 0xa1, 0xe7, 0xcc, 0x23, 0x58, 0xba, 0xec, 0xa1, 0x34,
       0xc8, 0x25, 0xa7] :=
  ⟨by decide, by decide, by decide, by decide⟩

/-- C2: `ghash` matches the NIST GCM vectors: with key
`66e94bd4ef8a2c3b884cfa59ca342b2e`, empty AAD and empty ciphertext the tag
is all-zero, and with ciphertext `0388dace60b6a392f328c2b971b2fe78` the tag
is `f38cbb1ad69223dcc3457ae5b6b0f885`. -/
theorem ghash_known_answer_vectors :
    ghash [0x66, 0xe9, 0x4b, 0xd4, 0xef, 0x8a, 0x2c, 0x3b, 0x88, 0x4c, 0xfa, 0x59, 0xca, 0x34,
        0x2b, 0x2e] [] [] = List.replicate 16 0 ∧
    ghash [0x66, 0xe9, 0x4b, 0xd4, 0xef, 0x8a, 0x2c, 0x3b, 0x88, 0x4c, 0xfa, 0x59, 0xca, 0x34,
        0x2b, 0x2e] []
      [0x03, 0x88, 0xda, 0xce, 0x60, 0xb6, 0xa3, 0x92, 0xf3, 0x28, 0xc2, 0xb9, 0x71, 0xb2, 0xfe,
       0x78] =
      [0xf3, 0x8c, 0xbb, 0x1a, 0xd6, 0x92, 0x23, 0xdc, 0xc3, 0x45, 0x7a, 0xe5, 0xb6, 0xb0, 0xf8,
       0x85] :=
  ⟨by decide, by decide⟩

/-- C8: folding a one-byte ciphertext into the accumulator is identical to
folding the 16-byte block of that byte followed by 15 zero bytes, while the
ciphertext byte counter advances by 1 (and by 16 for the full block). -/
theorem ghash_one_byte_zero_pad (g : GHash) (b : Nat) :
    (g.update [b]).function = g.function.process (b :: List.replicate 15 0) ∧
    (g.update [b]).function = (g.update (b :: List.replicate 15 0)).function ∧
    (g.update [b]).ciphertext_len = g.ciphertext_len + 1 ∧
    (g.update (b :: List.replicate 15 0)).ciphertext_len = g.ciphertext_len + 16 ∧
    (g.update [b]).data_len = g.data_len :=
  have h1 : (g.update [b]).function = g.function.process (b :: List.replicate 15 0) := rfl
  have h2 : (g.update (b :: List.replicate 15 0)).function
      = g.function.process (b :: List.replicate 15 0) := rfl
  ⟨h1, h1.trans h2.symm, rfl, rfl, rfl⟩

theorem beBytes_length (n x : Nat) : (beBytes n x).length = n := by
  induction n generalizing x with
  | zero => rfl
  | succ n ih => simp [beBytes, ih]

theorem wordsToBytes_length (ws : List Nat) : (wordsToBytes ws).length = 8 * ws.length := by
  induction ws with
  | nil => rfl
  | cons w ws ih =>
      simp only [wordsToBytes, List.map_cons, List.flatten_cons, List.length_append,
        List.length_cons, beBytes_length] at *
      omega

/-- C4: `Sha::pad` appends `0x80`, then the minimal number of zero bytes
reaching length 112 mod 128, then eight zero bytes, then the 64-bit
big-endian bit length; the result's length is a multiple of 128. -/
theorem sha_pad_structure (msg : List Nat) :
    ∃ z,
      pad msg = msg ++ 0x80 :: (List.replicate z 0 ++ List.replicate 8 0
        ++ beBytes 8 (8 * msg.length % M64)) ∧
      (msg.length + 1 + z) % 128 = 112 ∧
      (∀ k, (msg.length + 1 + k) % 128 = 112 → z ≤ k) ∧
      (pad msg).length % 128 = 0 := by
  have hlen : (pad msg).length
      = msg.length + 1 + (128 + 112 - (msg.length + 1) % 128) % 128 + 8 + 8 := by
    simp [pad, lenBytes, beBytes_length]
    omega
  refine ⟨(128 + 112 - (msg.length + 1) % 128) % 128, ?_, by omega, fun k hk => by omega, ?_⟩
  · simp [pad, lenBytes]
  · omega

/-- C7: `Sha::write_digest_into` succeeds, writing exactly `output_len`
bytes (the first `output_len / 8` state words big-endian), precisely when
the buffer length equals `output_len`, and fails on any other length. -/
theorem sha_write_digest_contract (s : Sha) (bufLen : Nat)
    (hstate : s.state.length = 8) (hout : s.output_len = 48 ∨ s.output_len = 64) :
    (bufLen = s.output_len →
      s.write_digest_into bufLen
        = some (wordsToBytes (s.state.take (s.output_len / 8))) ∧
      (wordsToBytes (s.state.take (s.output_len / 8))).length = s.output_len) ∧
    (bufLen ≠ s.output_len → s.write_digest_into bufLen = none) := by
  constructor
  · intro h
    constructor
    · simp [Sha.write_digest_into, h]
    · rw [wordsToBytes_length, List.length_take, hstate]
      rcases hout with h | h <;> simp [h]
  · intro h
    simp only [Sha.write_digest_into, if_neg (fun hh : s.output_len = bufLen => h hh.symm)]

theorem sha_write_digest_contract_witness :
    ((48 = (Sha.new sha384InitialState 48).output_len →
      (Sha.new sha384InitialState 48).write_digest_into 48
        = some (wordsToBytes ((Sha.new sha384InitialState 48).state.take
            ((Sha.new sha384InitialState 48).output_len / 8))) ∧
      (wordsToBytes ((Sha.new sha384InitialState 48).state.take
          ((Sha.new sha384InitialState 48).output_len / 8))).length
        = (Sha.new sha384InitialState 48).output_len) ∧
     (48 ≠ (Sha.new sha384InitialState 48).output_len →
      (Sha.new sha384InitialState 48).write_digest_into 48 = none)) :=
  sha_write_digest_contract (Sha.new sha384InitialState 48) 48 (by decide) (Or.inl rfl)

theorem mulStep_zero (v : GFBlock) :
    mulStep (⟨0, 0⟩, v, 0) =
      (⟨0, 0⟩,
       ⟨(v.w0 >>> 1) ^^^ (R0 &&& asr64 ((v.w1 <<< 63) % M64) 7),
        (v.w1 >>> 1) ||| ((v.w0 <<< 63) % M64)⟩, 0) := by
  simp [mulStep, asr64, Nat.zero_and, Nat.and_zero, Nat.xor_zero, Nat.zero_xor]

theorem mulWords_zero (n : Nat) :
    ∀ v : GFBlock, ∃ v', mulWords n (⟨0, 0⟩, v, 0) = (⟨0, 0⟩, v', 0) := by
  induction n with
  | zero => exact fun v => ⟨v, rfl⟩
  | succ n ih =>
      intro v
      obtain ⟨v', h⟩ := ih
        ⟨(v.w0 >>> 1) ^^^ (R0 &&& asr64 ((v.w1 <<< 63) % M64) 7),
         (v.w1 >>> 1) ||| ((v.w0 <<< 63) % M64)⟩
      exact ⟨v', by rw [mulWords, mulStep_zero]; exact h⟩

theorem gfMul_zero_left (y : GFBlock) : gfMul ⟨0, 0⟩ y = ⟨0, 0⟩ := by
  obtain ⟨v', h⟩ := mulWords_zero 64 y
  obtain ⟨v'', h'⟩ := mulWords_zero 64 v'
  simp [gfMul, h, h']

/-- `GHash::write_tag` unfolded: the length block is folded into the
accumulator by XOR followed by multiplication with the key element, and the
result is emitted. -/
theorem write_tag_eq (g : GHash) :
    g.write_tag = PolyFunction.write_value
      ⟨g.function.key_block,
       gfMul (gfXor g.function.state
         (GFBlock.new (beBytes 8 (8 * g.data_len % M64)
           ++ beBytes 8 (8 * g.ciphertext_len % M64))))
       g.function.key_block⟩ := rfl

/-- C10: for every 16-byte key, `ghash` with empty AAD and empty ciphertext
yields the all-zero tag: the length block is zero, XOR into the zero
accumulator is zero, and zero times the key element is zero. -/
theorem ghash_empty_all_zero (key : List Nat) (hkey : key.length = 16) :
    ghash key [] [] = List.replicate 16 0 := by
  have h1 : ghash key [] [] = (GHash.mk (PolyFunction.new key) 0 0).write_tag := rfl
  rw [h1, write_tag_eq]
  simp only []
  rw [show (PolyFunction.new key).state = (⟨0, 0⟩ : GFBlock) from rfl,
    show GFBlock.new (beBytes 8 (8 * 0 % M64) ++ beBytes 8 (8 * 0 % M64))
      = (⟨0, 0⟩ : GFBlock) from rfl,
    show gfXor ⟨0, 0⟩ ⟨0, 0⟩ = (⟨0, 0⟩ : GFBlock) from rfl,
    gfMul_zero_left,
    show PolyFunction.write_value ⟨(PolyFunction.new key).key_block, ⟨0, 0⟩⟩
      = wordsToBytes [0, 0] from rfl]
  decide

theorem ghash_empty_all_zero_witness :
    (List.replicate 16 0x42).length = 16 ∧
    ghash (List.replicate 16 0x42) [] [] = List.replicate 16 0 :=
  ⟨by decide, ghash_empty_all_zero (List.replicate 16 0x42) (by decide)⟩

theorem hmac_feed_key (l : List Nat) (p q : Nat) (h : Hmac) :
    (l.foldl (fun h b => Hmac.mk (h.inner_hash_function.update [b ^^^ p])
        (h.outer_hash_function.update [b ^^^ q])) h)
      = ⟨⟨h.inner_hash_function.fed ++ l.map (· ^^^ p)⟩,
         ⟨h.outer_hash_function.fed ++ l.map (· ^^^ q)⟩⟩ := by
  induction l generalizing h with
  | nil => simp
  | cons b l ih =>
      rw [List.foldl_cons, ih]
      simp [HashEngine.update, List.append_assoc]

theorem hmac_feed_const (l : List Nat) (p q : Nat) (h : Hmac) :
    (l.foldl (fun h _ => Hmac.mk (h.inner_hash_function.update [p])
        (h.outer_hash_function.update [q])) h)
      = ⟨⟨h.inner_hash_function.fed ++ List.replicate l.length p⟩,
         ⟨h.outer_hash_function.fed ++ List.replicate l.length q⟩⟩ := by
  induction l generalizing h with
  | nil => simp
  | cons b l ih =>
      rw [List.foldl_cons, ih]
      simp [HashEngine.update, List.replicate_succ, List.append_assoc]

/-- `Hmac::new` in closed form: the two engines have been fed exactly the
padded keys. -/
theorem hmac_new_eq (H : HashCap) (key : List Nat) :
    Hmac.new H key
      = ⟨⟨(if key.length > H.BLOCK_SIZE then (H.digest key).take H.DIGEST_SIZE
            else key).map (· ^^^ IPAD)
          ++ List.replicate (H.BLOCK_SIZE
              - (if key.length > H.BLOCK_SIZE then (H.digest key).take H.DIGEST_SIZE
                 else key).length) IPAD⟩,
         ⟨(if key.length > H.BLOCK_SIZE then (H.digest key).take H.DIGEST_SIZE
            else key).map (· ^^^ OPAD)
          ++ List.replicate (H.BLOCK_SIZE
              - (if key.length > H.BLOCK_SIZE then (H.digest key).take H.DIGEST_SIZE
                 else key).length) OPAD⟩⟩ := by
  simp only [Hmac.new]
  rw [hmac_feed_key, hmac_feed_const]
  simp [HashEngine.default]

/-- C3: `Hmac::new` replaces the key by its digest exactly when it exceeds
the block size, then feeds each engine a block-size stream: the key bytes
XOR-ed with the pad byte (`0x36` inner, `0x5c` outer) followed by copies of
the pad byte itself. -/
theorem hmac_new_key_processing (H : HashCap) (key : List Nat)
    (hdig : (H.digest key).length = H.DIGEST_SIZE)
    (hle : H.DIGEST_SIZE ≤ H.BLOCK_SIZE) :
    ∃ new_key : List Nat,
      (key.length > H.BLOCK_SIZE →
        new_key = (H.digest key).take H.DIGEST_SIZE ∧ new_key.length = H.DIGEST_SIZE) ∧
      (¬ key.length > H.BLOCK_SIZE → new_key = key) ∧
      (Hmac.new H key).inner_hash_function.fed
        = new_key.map (· ^^^ 0x36) ++ List.replicate (H.BLOCK_SIZE - new_key.length) 0x36 ∧
      (Hmac.new H key).outer_hash_function.fed
        = new_key.map (· ^^^ 0x5c) ++ List.replicate (H.BLOCK_SIZE - new_key.length) 0x5c ∧
      (Hmac.new H key).inner_hash_function.fed.length = H.BLOCK_SIZE ∧
      (Hmac.new H key).outer_hash_function.fed.length = H.BLOCK_SIZE := by
  refine ⟨if key.length > H.BLOCK_SIZE then (H.digest key).take H.DIGEST_SIZE else key,
    ?_, ?_, ?_, ?_, ?_, ?_⟩
  · intro hgt
    refine ⟨by rw [if_pos hgt], ?_⟩
    rw [if_pos hgt, List.length_take, hdig, Nat.min_self]
  · intro hngt
    rw [if_neg hngt]
  · rw [hmac_new_eq]
    rfl
  · rw [hmac_new_eq]
    rfl
  · rw [hmac_new_eq]
    simp only [List.length_append, List.length_map, List.length_replicate]
    split
    · next hgt => rw [List.length_take, hdig, Nat.min_self]; omega
    · next hngt => omega
  · rw [hmac_new_eq]
    simp only [List.length_append, List.length_map, List.length_replicate]
    split
    · next hgt => rw [List.length_take, hdig, Nat.min_self]; omega
    · next hngt => omega

theorem hmac_new_key_processing_witness :
    ∃ new_key : List Nat,
      (([1, 2, 3, 4, 5] : List Nat).length > 4 →
        new_key = ((fun l : List Nat => [l.length % 256, 0]) [1, 2, 3, 4, 5]).take 2
          ∧ new_key.length = 2) ∧
      (¬ ([1, 2, 3, 4, 5] : List Nat).length > 4 → new_key = [1, 2, 3, 4, 5]) ∧
      (Hmac.new ⟨4, 2, fun l => [l.length % 256, 0]⟩ [1, 2, 3, 4, 5]).inner_hash_function.fed
        = new_key.map (· ^^^ 0x36) ++ List.replicate (4 - new_key.length) 0x36 ∧
      (Hmac.new ⟨4, 2, fun l => [l.length % 256, 0]⟩ [1, 2, 3, 4, 5]).outer_hash_function.fed
        = new_key.map (· ^^^ 0x5c) ++ List.replicate (4 - new_key.length) 0x5c ∧
      (Hmac.new ⟨4, 2, fun l => [l.length % 256, 0]⟩ [1, 2, 3, 4, 5]).inner_hash_function.fed.length = 4 ∧
      (Hmac.new ⟨4, 2, fun l => [l.length % 256, 0]⟩ [1, 2, 3, 4, 5]).outer_hash_function.fed.length = 4 :=
  hmac_new_key_processing ⟨4, 2, fun l => [l.length % 256, 0]⟩ [1, 2, 3, 4, 5]
    (by decide) (by decide)

theorem chunksF_fuel_irrel (n : Nat) (hn : 0 < n) :
    ∀ (f f' : Nat) (l : List Nat), l.length ≤ f → l.length ≤ f' →
      chunksF f n l = chunksF f' n l := by
  intro f
  induction f with
  | zero =>
      intro f' l hl _
      have : l = [] := List.eq_nil_of_length_eq_zero (by omega)
      subst this
      cases f' <;> rfl
  | succ f ih =>
      intro f' l hl hl'
      cases l with
      | nil => cases f' <;> rfl
      | cons x xs =>
          cases f' with
          | zero => simp at hl'
          | succ f'' =>
              simp only [List.length_cons] at hl hl'
              show (x :: xs).take n :: chunksF f n ((x :: xs).drop n)
                  = (x :: xs).take n :: chunksF f'' n ((x :: xs).drop n)
              congr 1
              apply ih <;> simp only [List.length_drop, List.length_cons] <;> omega

theorem chunks_cons (n : Nat) (hn : 0 < n) (x : Nat) (xs : List Nat) :
    chunks n (x :: xs) = (x :: xs).take n :: chunks n ((x :: xs).drop n) := by
  show chunksF (x :: xs).length n (x :: xs) = _
  rw [show chunksF (x :: xs).length n (x :: xs)
      = (x :: xs).take n :: chunksF xs.length n ((x :: xs).drop n) from rfl]
  congr 1
  apply chunksF_fuel_irrel n hn
  · simp only [List.length_drop, List.length_cons]
    omega
  · exact Nat.le_refl _

theorem chunks_nil (n : Nat) : chunks n [] = [] := rfl

theorem chunks_append_aux (n : Nat) (hn : 0 < n) :
    ∀ (k : Nat) (a b : List Nat), a.length = n * k →
      chunks n (a ++ b) = chunks n a ++ chunks n b := by
  intro k
  induction k with
  | zero =>
      intro a b ha
      have : a = [] := List.eq_nil_of_length_eq_zero (by omega)
      subst this
      simp [chunks_nil]
  | succ k ih =>
      intro a b ha
      rw [Nat.mul_succ] at ha
      cases a with
      | nil => simp at ha; omega
      | cons x xs =>
          simp only [List.length_cons] at ha
          have hxs : n ≤ (x :: xs).length := by simp only [List.length_cons]; omega
          rw [List.cons_append, chunks_cons n hn, chunks_cons n hn x xs]
          rw [show (x :: (xs ++ b)) = (x :: xs) ++ b from rfl,
            List.take_append_of_le_length hxs, List.drop_append_of_le_length hxs]
          rw [ih ((x :: xs).drop n) b
            (by simp only [List.length_drop, List.length_cons]; omega)]
          simp

theorem chunks_append (n : Nat) (hn : 0 < n) (a b : List Nat) (ha : a.length % n = 0) :
    chunks n (a ++ b) = chunks n a ++ chunks n b := by
  obtain ⟨k, hk⟩ : ∃ k, a.length = n * k :=
    ⟨a.length / n, (Nat.mul_div_cancel' (Nat.dvd_of_mod_eq_zero ha)).symm⟩
  exact chunks_append_aux n hn k a b hk

/-- `GHash::process` over a block-aligned prefix splits into two calls. -/
theorem ghash_process_append (g : GHash) (a b : List Nat) (ha : a.length % 16 = 0) :
    g.process (a ++ b) = (g.process a).process b := by
  simp only [GHash.process, chunks_append 16 (by norm_num) a b ha, List.foldl_append]

/-- `GHash::update` over a block-aligned prefix splits into two calls. -/
theorem ghash_update_append (g : GHash) (a b : List Nat) (ha : a.length % 16 = 0) :
    (g.update a).update b = g.update (a ++ b) := by
  simp only [GHash.update, GHash.process, chunks_append 16 (by norm_num) a b ha,
    List.foldl_append, List.length_append]
  congr 1
  omega

theorem ghash_update_nil (g : GHash) : g.update [] = g := by
  simp only [GHash.update, GHash.process]
  rfl

theorem ghash_update_chunked :
    ∀ (cs : List (List Nat)) (g : GHash),
      (∀ c ∈ cs.dropLast, c.length % 16 = 0) →
      cs.foldl GHash.update g = g.update cs.flatten := by
  intro cs
  induction cs with
  | nil =>
      intro g _
      simp [ghash_update_nil]
  | cons c cs ih =>
      intro g hal
      cases cs with
      | nil => simp [List.flatten]
      | cons c2 cs2 =>
          have hc : c.length % 16 = 0 := by
            apply hal
            simp [List.dropLast]
          have htail : ∀ c' ∈ (c2 :: cs2).dropLast, c'.length % 16 = 0 := by
            intro c' hc'
            apply hal
            simp [List.dropLast] at hc' ⊢
            tauto
          rw [List.foldl_cons, ih (g.update c) htail,
            ghash_update_append g c (c2 :: cs2).flatten hc]
          rw [show ((c :: c2 :: cs2).flatten : List Nat)
            = c ++ (c2 :: cs2).flatten from rfl]

theorem hmac_update_chunked (h : Hmac) (cs : List (List Nat)) :
    cs.foldl Hmac.update h = h.update cs.flatten := by
  induction cs generalizing h with
  | nil => simp [Hmac.update, HashEngine.update]
  | cons c cs ih =>
      rw [List.foldl_cons, ih, List.flatten_cons]
      simp [Hmac.update, HashEngine.update, List.append_assoc]

/-- C5: streaming equivalence.  An `Hmac` context fed a message in any
sequence of `update` calls produces the digest of one call on the
concatenation; a `GHash` context fed the ciphertext in any chunking whose
cuts fall on 16-byte boundaries produces the tag of one call on the
concatenation. -/
theorem streaming_equivalence (H : HashCap) (key : List Nat) (mcs : List (List Nat))
    (gkey aad : List Nat) (ccs : List (List Nat))
    (hal : ∀ c ∈ ccs.dropLast, c.length % 16 = 0) :
    (mcs.foldl Hmac.update (Hmac.new H key)).write_digest H
      = ((Hmac.new H key).update mcs.flatten).write_digest H ∧
    (ccs.foldl GHash.update (GHash.new gkey aad)).write_tag
      = ((GHash.new gkey aad).update ccs.flatten).write_tag := by
  constructor
  · rw [hmac_update_chunked]
  · rw [ghash_update_chunked ccs _ hal]

theorem streaming_equivalence_witness :
    (([[5], [6, 7]] : List (List Nat)).foldl Hmac.update
        (Hmac.new ⟨4, 2, fun l => [l.length % 256, 0]⟩ [1, 2, 3])).write_digest
        ⟨4, 2, fun l => [l.length % 256, 0]⟩
      = ((Hmac.new ⟨4, 2, fun l => [l.length % 256, 0]⟩ [1, 2, 3]).update
          ([[5], [6, 7]] : List (List Nat)).flatten).write_digest
          ⟨4, 2, fun l => [l.length % 256, 0]⟩ ∧
    (([List.replicate 16 3, [9]] : List (List Nat)).foldl GHash.update
        (GHash.new (List.replicate 16 1) [2])).write_tag
      = ((GHash.new (List.replicate 16 1) [2]).update
          ([List.replicate 16 3, [9]] : List (List Nat)).flatten).write_tag :=
  streaming_equivalence ⟨4, 2, fun l => [l.length % 256, 0]⟩ [1, 2, 3] [[5], [6, 7]]
    (List.replicate 16 1) [2] [List.replicate 16 3, [9]] (by decide)

/-- C6: `GHash` finalization folds in one last block holding the two bit
lengths (8 × the byte counters) as big-endian 64-bit fields — XOR into the
accumulator, multiply by the key element — and emits the accumulator
big-endian. -/
theorem ghash_write_tag_length_block (key aad ct : List Nat) :
    ∃ block : List Nat,
      block.length = 16 ∧
      block.take 8 = beBytes 8 (8 * aad.length % M64) ∧
      block.drop 8 = beBytes 8 (8 * ct.length % M64) ∧
      ((GHash.new key aad).update ct).data_len = aad.length ∧
      ((GHash.new key aad).update ct).ciphertext_len = ct.length ∧
      ghash key aad ct
        = PolyFunction.write_value
            ⟨((GHash.new key aad).update ct).function.key_block,
             gfMul (gfXor ((GHash.new key aad).update ct).function.state (GFBlock.new block))
               ((GHash.new key aad).update ct).function.key_block⟩ := by
  have hdl : ((GHash.new key aad).update ct).data_len = aad.length := rfl
  have hcl : ((GHash.new key aad).update ct).ciphertext_len = ct.length := Nat.zero_add _
  refine ⟨beBytes 8 (8 * aad.length % M64) ++ beBytes 8 (8 * ct.length % M64),
    ?_, ?_, ?_, hdl, hcl, ?_⟩
  · simp [beBytes_length]
  · rw [List.take_append_of_le_length (by rw [beBytes_length]),
      List.take_of_length_le (by rw [beBytes_length])]
  · rw [List.drop_append_of_le_length (by rw [beBytes_length]),
      List.drop_of_length_le (by rw [beBytes_length])]
    simp
  · rw [show ghash key aad ct = ((GHash.new key aad).update ct).write_tag from rfl,
      write_tag_eq, hdl, hcl]

end CryptoPractice
